import Mathlib

/-!
Shallow embedding of `src/bind/houdini.py`, a rez-bind file for Houdini.

Python strings are modelled as `List Char` (sequences of code points),
filesystem paths as lists of name segments, and the relevant filesystem
state (the resolved interpreter binary and the contents of the two
scanned tool directories) as an explicit `FileSystemView` record.
Python exceptions are modelled with `Except`.
-/

namespace HoudiniBind

/-- A Python string: a sequence of characters. -/
abbrev PyStr := List Char

/-- A filesystem path: a sequence of name segments. -/
abbrev PyPath := List PyStr

/-- Models `pathlib.PurePath.name`: the final path segment (empty for an empty path). -/
def pathName (p : PyPath) : PyStr := (p.getLast?).getD []

/-- Renders a path the way an f-string renders a `pathlib.Path`: segments joined by a slash. -/
def pathStr (p : PyPath) : PyStr :=
  match p with
  | [] => []
  | [seg] => seg
  | seg :: rest => seg ++ '/' :: pathStr rest

/-- Models Python `str.split(sep)` for a one-character separator: splits at every
occurrence of `sep`; the empty string yields `[""]`. -/
def pySplit (sep : Char) : PyStr → List PyStr
  | [] => [[]]
  | c :: rest =>
    if c = sep then [] :: pySplit sep rest
    else
      match pySplit sep rest with
      | [] => [[c]]
      | p :: ps => (c :: p) :: ps

/-- Models Python `sep.join(parts)` for a one-character separator. -/
def pyJoin (sep : Char) : List PyStr → PyStr
  | [] => []
  | [p] => p
  | p :: ps => p ++ sep :: pyJoin sep ps

/-- Embeds `get_houdini_version` from `src/bind/houdini.py`: take the final segment of
the `$HFS` path, drop its first three characters, split on dots, truncate to the first
two components when requested and more than two exist, and rejoin with dots. -/
def get_houdini_version (hfs_path : PyPath) (only_major_minor : Bool) : PyStr :=
  let folder_name := pathName hfs_path
  let hfs_version := folder_name.drop 3
  let components := pySplit '.' hfs_version
  let components :=
    if 2 < components.length ∧ only_major_minor then components.take 2 else components
  pyJoin '.' components

/-- One entry of a scanned directory, carrying the metadata the source queries:
`is_file()` (which follows symlinks), `is_symlink()`, and `os.access(child, os.X_OK)`. -/
structure DirEntry where
  name : PyStr
  isFile : Bool
  isSymlink : Bool
  executable : Bool
deriving DecidableEq

/-- The filesystem state beneath the `$HFS` path that the source observes:
the symlink-resolved path of `<hfs>/python/bin/python` (`Path.resolve` never raises;
for an absent file it returns the unresolved path itself), and the entry listings of
the two scanned tool directories, `none` when the directory does not exist. -/
structure FileSystemView where
  resolvedPythonBin : PyPath
  binDir : Option (List DirEntry)
  sbinDir : Option (List DirEntry)
deriving DecidableEq

/-- The two exception kinds the source can raise: `RuntimeError` (with its message)
from `get_python_version`, and `FileNotFoundError` (with the missing path) from
`Path.iterdir` in `get_tools`. -/
inductive PyError where
  | runtimeError (msg : PyStr)
  | fileNotFoundError (path : PyPath)
deriving DecidableEq

/-- Embeds `re.match("python(\d\.\d+)$", name)`: the name must be the literal `python`
followed by one digit, a dot, and one or more digits, ending the string; on success the
captured group (digit, dot, digits) is returned. -/
def pythonVersionMatch (n : PyStr) : Option PyStr :=
  match n with
  | 'p' :: 'y' :: 't' :: 'h' :: 'o' :: 'n' :: d :: '.' :: ds =>
    if d.isDigit && !ds.isEmpty && ds.all Char.isDigit then some (d :: '.' :: ds) else none
  | _ => none

/-- Embeds `get_python_version` from `src/bind/houdini.py`: match the resolved filename
of `<hfs>/python/bin/python` against the version pattern; on success return the captured
group, otherwise raise `RuntimeError` with a message carrying the resolved path. -/
def get_python_version (fs : FileSystemView) : Except PyError PyStr :=
  let python_bin := fs.resolvedPythonBin
  match pythonVersionMatch (pathName python_bin) with
  | some g => Except.ok g
  | none =>
    Except.error (PyError.runtimeError
      (("Could not determine python version for ").toList ++ pathStr python_bin))

/-- The per-entry filter of `get_tools`: keep regular files whose name does not contain
the substring `-bin`, that are not symlinks, and that are executable. -/
def toolQualifies (child : DirEntry) : Bool :=
  child.isFile && !(decide (("-bin").toList <:+: child.name))
    && !child.isSymlink && child.executable

/-- The names surviving the `get_tools` filter in one directory listing. -/
def dirTools (entries : List DirEntry) : List PyStr :=
  (entries.filter toolQualifies).map DirEntry.name

/-- Models Python `sorted` on strings: the ascending lexicographic reordering
(insertion sort computes the canonical sorted permutation of a total order). -/
def pySorted (l : List PyStr) : List PyStr :=
  List.insertionSort (fun a b => a ≤ b) l

/-- Embeds `get_tools` from `src/bind/houdini.py`: scan `bin` then `houdini/sbin`
under the root, failing with `FileNotFoundError` as soon as a directory is missing
(discarding anything already collected), filter each listing, and sort the merge. -/
def get_tools (root : PyPath) (fs : FileSystemView) : Except PyError (List PyStr) :=
  match fs.binDir with
  | none => Except.error (PyError.fileNotFoundError (root ++ [("bin").toList]))
  | some binEntries =>
    match fs.sbinDir with
    | none =>
      Except.error (PyError.fileNotFoundError (root ++ [("houdini").toList, ("sbin").toList]))
    | some sbinEntries =>
      Except.ok (pySorted (dirTools binEntries ++ dirTools sbinEntries))

/-- The descriptor fields `bind` populates that the verification concerns: the fixed
package name, the version string, the tool list, and the requirement strings. The
environment hooks, variants and registry side effects are external collaborators. -/
structure PackageDescriptor where
  name : PyStr
  version : PyStr
  tools : List PyStr
  requires : List PyStr
deriving DecidableEq

/-- Embeds `bind` from `src/bind/houdini.py`: derive the version from the `$HFS` folder
name, resolve the interpreter version (building the `~python-{version}` requirement)
before the tool scan, then assemble the descriptor under the constant name
`houdinier`. Exceptions from the resolvers propagate unmodified. -/
def bind (hfs_path : PyPath) (major_minor_only : Bool) (fs : FileSystemView) :
    Except PyError PackageDescriptor :=
  let version := get_houdini_version hfs_path major_minor_only
  match get_python_version fs with
  | Except.error e => Except.error e
  | Except.ok python_version =>
    let requires := [("~python-").toList ++ python_version]
    match get_tools hfs_path fs with
    | Except.error e => Except.error e
    | Except.ok tools =>
      Except.ok { name := ("houdinier").toList, version := version, tools := tools,
                  requires := requires }

/-- Modelled from the spec: the rez requirement-string interface (spec section 6 and
section 4.4) — a leading tilde marks a weak (soft/compatible) reference. -/
def reqIsWeak (r : PyStr) : Bool := r.head? = some '~'

/-- Modelled from the spec: the body of a requirement string after the weak marker. -/
def reqBody (r : PyStr) : PyStr := if reqIsWeak r then r.tail else r

/-- Modelled from the spec: the package name of a requirement string, the body up to
the name/range separator dash. -/
def reqPkgName (r : PyStr) : PyStr := (reqBody r).takeWhile (fun c => c ≠ '-')

/-- Modelled from the spec: the version range of a requirement string, the body after
the name/range separator dash. -/
def reqRange (r : PyStr) : PyStr := ((reqBody r).dropWhile (fun c => c ≠ '-')).tail

/-- Modelled from the spec: a plain dotted range such as `3.9` matches exactly the
versions whose dotted components extend the range's components (any patch). -/
def rangeMatches (range : PyStr) (versionComponents : List PyStr) : Bool :=
  decide ((pySplit '.' range) <+: versionComponents)

/-! Helper lemmas about splitting and joining. -/

theorem pySplit_ne_nil (sep : Char) (s : PyStr) : pySplit sep s ≠ [] := by
  induction s with
  | nil => simp [pySplit]
  | cons c rest ih =>
    simp only [pySplit]
    split
    · simp
    · cases h : pySplit sep rest with
      | nil => exact absurd h ih
      | cons p ps => simp [h]

theorem pySplit_of_not_mem (sep : Char) (s : PyStr) (h : sep ∉ s) : pySplit sep s = [s] := by
  induction s with
  | nil => rfl
  | cons c rest ih =>
    have hc : ¬ c = sep := fun e => h (e ▸ List.mem_cons_self c rest)
    have hr := ih (fun hm => h (List.mem_cons_of_mem c hm))
    simp only [pySplit, if_neg hc, hr]

theorem pySplit_append (sep : Char) (a rest : PyStr) (h : sep ∉ a) :
    pySplit sep (a ++ sep :: rest) = a :: pySplit sep rest := by
  induction a with
  | nil => simp [pySplit]
  | cons c as ih =>
    have hc : ¬ c = sep := fun e => h (e ▸ List.mem_cons_self c as)
    have hr := ih (fun hm => h (List.mem_cons_of_mem c hm))
    simp only [List.cons_append, pySplit, if_neg hc, List.append_eq, hr]

theorem pySplit_pyJoin (sep : Char) (comps : List PyStr) (h0 : comps ≠ [])
    (h : ∀ c ∈ comps, sep ∉ c) : pySplit sep (pyJoin sep comps) = comps := by
  induction comps with
  | nil => exact absurd rfl h0
  | cons p ps ih =>
    cases ps with
    | nil =>
      simp only [pyJoin]
      exact pySplit_of_not_mem sep p (h p (List.mem_cons_self p []))
    | cons q qs =>
      have hstep : pyJoin sep (p :: q :: qs) = p ++ sep :: pyJoin sep (q :: qs) := rfl
      rw [hstep, pySplit_append sep p _ (h p (List.mem_cons_self p _)),
        ih (by simp) (fun c hc => h c (List.mem_cons_of_mem p hc))]

theorem pyJoin_pySplit (sep : Char) (s : PyStr) : pyJoin sep (pySplit sep s) = s := by
  induction s with
  | nil => rfl
  | cons c rest ih =>
    by_cases hc : c = sep
    · subst hc
      simp only [pySplit, if_pos rfl]
      cases h : pySplit c rest with
      | nil => exact absurd h (pySplit_ne_nil c rest)
      | cons l ls =>
        rw [h] at ih
        show [] ++ c :: pyJoin c (l :: ls) = c :: rest
        simp [ih]
    · simp only [pySplit, if_neg hc]
      cases h : pySplit sep rest with
      | nil => exact absurd h (pySplit_ne_nil sep rest)
      | cons p ps =>
        rw [h] at ih
        cases ps with
        | nil =>
          have : pyJoin sep [p] = p := rfl
          rw [this] at ih
          show pyJoin sep [c :: p] = c :: rest
          rw [show pyJoin sep [c :: p] = c :: p from rfl, ih]
        | cons q qs =>
          have hstep : pyJoin sep ((c :: p) :: q :: qs) =
              (c :: p) ++ sep :: pyJoin sep (q :: qs) := rfl
          rw [hstep]
          have hstep2 : pyJoin sep (p :: q :: qs) = p ++ sep :: pyJoin sep (q :: qs) := rfl
          rw [hstep2] at ih
          simpa using ih

/-- C1: for an installation path whose final segment is a 3-character prefix followed
by a dotted payload `a.b.c`, the version resolver returns `a.b` with truncation enabled
and `a.b.c` with truncation disabled; for a payload `a.b` with only two components both
truncation settings return `a.b`. -/
theorem get_houdini_version_truncation (hfs_path : PyPath) (pre a b c : PyStr)
    (hpre : pre.length = 3) (ha : '.' ∉ a) (hb : '.' ∉ b) (hc : '.' ∉ c) :
    (pathName hfs_path = pre ++ (a ++ '.' :: (b ++ '.' :: c)) →
      get_houdini_version hfs_path true = a ++ '.' :: b ∧
      get_houdini_version hfs_path false = a ++ '.' :: (b ++ '.' :: c)) ∧
    (pathName hfs_path = pre ++ (a ++ '.' :: b) →
      ∀ flag, get_houdini_version hfs_path flag = a ++ '.' :: b) := by
  constructor
  · intro hname
    have hsplit : pySplit '.' ((pathName hfs_path).drop 3) = [a, b, c] := by
      rw [hname, ← hpre, List.drop_left, pySplit_append _ _ _ ha, pySplit_append _ _ _ hb,
        pySplit_of_not_mem _ _ hc]
    constructor
    · simp only [get_houdini_version, hsplit]
      rw [if_pos (by simp)]
      rfl
    · simp only [get_houdini_version, hsplit]
      rw [if_neg (by simp)]
      rfl
  · intro hname flag
    have hsplit : pySplit '.' ((pathName hfs_path).drop 3) = [a, b] := by
      rw [hname, ← hpre, List.drop_left, pySplit_append _ _ _ ha,
        pySplit_of_not_mem _ _ hb]
    simp only [get_houdini_version, hsplit]
    rw [if_neg (by simp)]
    rfl

/-- Witness for C1 at the concrete folder name `hfs19.5.493`. -/
theorem get_houdini_version_truncation_witness :
    get_houdini_version [("hfs19.5.493").toList] true = ("19").toList ++ '.' :: ("5").toList ∧
    get_houdini_version [("hfs19.5.493").toList] false =
      ("19").toList ++ '.' :: (("5").toList ++ '.' :: ("493").toList) :=
  (get_houdini_version_truncation [("hfs19.5.493").toList] (("hfs").toList) (("19").toList)
    (("5").toList) (("493").toList) (by decide) (by decide) (by decide) (by decide)).1
    (by decide)

/-- C2: the version resolver is total — it returns a string for every input (its
return type is `PyStr`, not `Except`, because the source cannot raise): without
truncation the payload after the first three characters is returned verbatim, with
truncation and at most two components it is also returned verbatim, and arbitrary
non-numeric content such as `hfsabc` yields `abc`. -/
theorem get_houdini_version_never_raises :
    (∀ hfs_path, get_houdini_version hfs_path false = (pathName hfs_path).drop 3) ∧
    (∀ hfs_path flag, (pySplit '.' ((pathName hfs_path).drop 3)).length ≤ 2 →
      get_houdini_version hfs_path flag = (pathName hfs_path).drop 3) ∧
    (∀ flag, get_houdini_version [("hfsabc").toList] flag = ("abc").toList) := by
  refine ⟨fun hfs_path => ?_, fun hfs_path flag hlen => ?_, fun flag => ?_⟩
  · simp only [get_houdini_version]
    rw [if_neg (by simp), pyJoin_pySplit]
  · simp only [get_houdini_version]
    rw [if_neg (fun h => absurd h.1 (by omega)), pyJoin_pySplit]
  · cases flag <;> decide

/-- Witness for C2 at the concrete folder name `hfs19.5`. -/
theorem get_houdini_version_never_raises_witness :
    (pySplit '.' ((pathName [("hfs19.5").toList]).drop 3)).length ≤ 2 ∧
    get_houdini_version [("hfs19.5").toList] true = (pathName [("hfs19.5").toList]).drop 3 :=
  ⟨by decide, get_houdini_version_never_raises.2.1 [("hfs19.5").toList] true (by decide)⟩

/-- C9: the version resolver drops the first three characters of the final path segment
unconditionally, with no validation of the expected product prefix: a final segment of
length at most 3 yields the empty string, and the segment `19.5.493` (which does not
start with the prefix) yields `5.493` under both truncation settings. -/
theorem get_houdini_version_no_validation :
    (∀ hfs_path flag, (pathName hfs_path).length ≤ 3 →
      get_houdini_version hfs_path flag = []) ∧
    (∀ flag, get_houdini_version [("19.5.493").toList] flag = ("5.493").toList) := by
  refine ⟨fun hfs_path flag hlen => ?_, fun flag => ?_⟩
  · have hdrop : (pathName hfs_path).drop 3 = [] := by
      rw [List.drop_eq_nil_iff]
      omega
    simp only [get_houdini_version, hdrop]
    rw [show pySplit '.' [] = [[]] from rfl, if_neg (by simp)]
    rfl
  · cases flag <;> decide

/-- Witness for C9 at the concrete two-character folder name `ab`. -/
theorem get_houdini_version_no_validation_witness :
    (pathName [("ab").toList]).length ≤ 3 ∧
    get_houdini_version [("ab").toList] true = [] :=
  ⟨by decide, get_houdini_version_no_validation.1 [("ab").toList] true (by decide)⟩

/-- Characterization of the interpreter-name pattern: it succeeds exactly on names of
the form `python` + digit + `.` + nonempty digits, capturing the version part. -/
theorem pythonVersionMatch_eq_some (n g : PyStr) :
    pythonVersionMatch n = some g ↔
      ∃ d ds, n = ("python").toList ++ d :: '.' :: ds ∧ d.isDigit ∧ ds ≠ [] ∧
        ds.all Char.isDigit ∧ g = d :: '.' :: ds := by
  constructor
  · intro h
    unfold pythonVersionMatch at h
    split at h
    next d ds =>
      split at h
      next hcond =>
        have hcond' : (d.isDigit = true ∧ ¬ ds = []) ∧ ∀ x ∈ ds, x.isDigit = true := by
          simpa using hcond
        simp only [Option.some.injEq] at h
        exact ⟨d, ds, rfl, hcond'.1.1, hcond'.1.2, List.all_eq_true.mpr hcond'.2, h.symm⟩
      next => simp at h
    next => simp at h
  · rintro ⟨d, ds, rfl, h1, h2, h3, rfl⟩
    have h2' : ds.isEmpty = false := by
      cases ds with
      | nil => exact absurd rfl h2
      | cons x xs => rfl
    have he : ("python").toList ++ d :: '.' :: ds =
        'p' :: 'y' :: 't' :: 'h' :: 'o' :: 'n' :: d :: '.' :: ds := rfl
    rw [he]
    simp [pythonVersionMatch, h1, h2', h3]

/-- C3: the interpreter-version resolver returns the captured major.minor group exactly
when the resolved filename of `<root>/python/bin/python` is the literal `python`
followed by one digit, a dot, and one or more digits ending the string; in every other
case it fails with an error whose message carries the attempted resolved path. -/
theorem get_python_version_spec (fs : FileSystemView) :
    (∀ d ds, pathName fs.resolvedPythonBin = ("python").toList ++ d :: '.' :: ds →
      d.isDigit → ds ≠ [] → ds.all Char.isDigit →
      get_python_version fs = Except.ok (d :: '.' :: ds)) ∧
    ((¬ ∃ d ds, pathName fs.resolvedPythonBin = ("python").toList ++ d :: '.' :: ds ∧
        d.isDigit = true ∧ ds ≠ [] ∧ ds.all Char.isDigit = true) →
      ∃ msg, get_python_version fs = Except.error (PyError.runtimeError msg) ∧
        pathStr fs.resolvedPythonBin <:+ msg) := by
  constructor
  · intro d ds hname h1 h2 h3
    have hm : pythonVersionMatch (pathName fs.resolvedPythonBin) = some (d :: '.' :: ds) :=
      (pythonVersionMatch_eq_some _ _).mpr ⟨d, ds, hname, h1, h2, h3, rfl⟩
    simp [get_python_version, hm]
  · intro hno
    have hnone : pythonVersionMatch (pathName fs.resolvedPythonBin) = none := by
      cases h : pythonVersionMatch (pathName fs.resolvedPythonBin) with
      | none => rfl
      | some g =>
        obtain ⟨d, ds, hname, h1, h2, h3, _⟩ := (pythonVersionMatch_eq_some _ _).mp h
        exact absurd ⟨d, ds, hname, h1, h2, h3⟩ hno
    refine ⟨("Could not determine python version for ").toList ++
      pathStr fs.resolvedPythonBin, ?_, List.suffix_append _ _⟩
    simp [get_python_version, hnone]

/-- Witness for C3 at a resolved interpreter named `python3.11`. -/
theorem get_python_version_spec_witness :
    get_python_version ⟨[("usr").toList, ("python3.11").toList], none, none⟩ =
      Except.ok ('3' :: '.' :: ("11").toList) :=
  (get_python_version_spec ⟨[("usr").toList, ("python3.11").toList], none, none⟩).1
    '3' (("11").toList) (by decide) (by decide) (by decide) (by decide)

/-- Membership in one scanned directory's surviving names, spelled out as the four
filter conditions of the source. -/
theorem mem_dirTools (es : List DirEntry) (t : PyStr) :
    t ∈ dirTools es ↔ ∃ c ∈ es,
      (c.isFile ∧ ¬ (("-bin").toList <:+: c.name) ∧ ¬ c.isSymlink ∧ c.executable) ∧
        c.name = t := by
  simp only [dirTools, List.mem_map, List.mem_filter, toolQualifies, Bool.and_eq_true,
    Bool.not_eq_true', decide_eq_false_iff_not, Bool.not_eq_true]
  constructor
  · rintro ⟨c, ⟨hc, ⟨⟨h1, h2⟩, h3⟩, h4⟩, rfl⟩
    exact ⟨c, hc, ⟨h1, h2, by simp [h3], h4⟩, rfl⟩
  · rintro ⟨c, hc, ⟨h1, h2, h3, h4⟩, rfl⟩
    exact ⟨c, ⟨hc, ⟨⟨h1, h2⟩, by simpa using h3⟩, h4⟩, rfl⟩

/-- The example directory of the claim: `hython` (executable file), `hython-bin`
(executable file), `old_hython` (a symlink, which `is_file` also reports as a file),
and `readme.txt` (non-executable file). -/
def exampleBinEntries : List DirEntry :=
  [⟨("hython").toList, true, false, true⟩,
   ⟨("hython-bin").toList, true, false, true⟩,
   ⟨("old_hython").toList, true, true, true⟩,
   ⟨("readme.txt").toList, true, false, false⟩]

/-- C4: tool discovery includes a directory entry exactly when it is a regular file
whose name does not contain the substring `-bin`, is not a symlink, and is executable;
on the example directory it returns exactly `[hython]`. -/
theorem get_tools_filter :
    (∀ root fs bs ss, fs.binDir = some bs → fs.sbinDir = some ss →
      ∃ l, get_tools root fs = Except.ok l ∧
        ∀ t, t ∈ l ↔ ∃ c ∈ bs ++ ss,
          (c.isFile ∧ ¬ (("-bin").toList <:+: c.name) ∧ ¬ c.isSymlink ∧ c.executable) ∧
            c.name = t) ∧
    get_tools [] ⟨[], some exampleBinEntries, some []⟩ =
      Except.ok [("hython").toList] := by
  constructor
  · intro root fs bs ss hb hs
    refine ⟨pySorted (dirTools bs ++ dirTools ss), by simp [get_tools, hb, hs], fun t => ?_⟩
    rw [pySorted, (List.perm_insertionSort _ _).mem_iff, List.mem_append]
    rw [mem_dirTools, mem_dirTools]
    constructor
    · rintro (⟨c, hc, hq, rfl⟩ | ⟨c, hc, hq, rfl⟩)
      · exact ⟨c, List.mem_append_left _ hc, hq, rfl⟩
      · exact ⟨c, List.mem_append_right _ hc, hq, rfl⟩
    · rintro ⟨c, hc, hq, rfl⟩
      rcases List.mem_append.mp hc with h | h
      · exact Or.inl ⟨c, h, hq, rfl⟩
      · exact Or.inr ⟨c, h, hq, rfl⟩
  · rfl

/-- Witness for C4 at the example directory. -/
theorem get_tools_filter_witness :
    ∃ l, get_tools [] ⟨[], some exampleBinEntries, some []⟩ = Except.ok l ∧
      ∀ t, t ∈ l ↔ ∃ c ∈ exampleBinEntries ++ [],
        (c.isFile ∧ ¬ (("-bin").toList <:+: c.name) ∧ ¬ c.isSymlink ∧ c.executable) ∧
          c.name = t :=
  get_tools_filter.1 [] ⟨[], some exampleBinEntries, some []⟩ exampleBinEntries [] rfl rfl

/-- C5: when both directories exist, tool discovery returns the lexicographically
sorted merge of the surviving names of the two listings, and the result is unchanged
under any reordering of how the filesystem enumerates either directory. -/
theorem get_tools_sorted_deterministic (root : PyPath) (fs fs' : FileSystemView)
    (bs ss bs' ss' : List DirEntry)
    (hb : fs.binDir = some bs) (hs : fs.sbinDir = some ss)
    (hb' : fs'.binDir = some bs') (hs' : fs'.sbinDir = some ss')
    (hpb : bs.Perm bs') (hps : ss.Perm ss') :
    ∃ l, get_tools root fs = Except.ok l ∧ get_tools root fs' = Except.ok l ∧
      l.Sorted (fun a b => a ≤ b) ∧ l.Perm (dirTools bs ++ dirTools ss) := by
  have hperm : (dirTools bs ++ dirTools ss).Perm (dirTools bs' ++ dirTools ss') :=
    ((hpb.filter _).map _).append ((hps.filter _).map _)
  have heq : pySorted (dirTools bs ++ dirTools ss) =
      pySorted (dirTools bs' ++ dirTools ss') := by
    have hp : (pySorted (dirTools bs ++ dirTools ss)).Perm
        (pySorted (dirTools bs' ++ dirTools ss')) :=
      ((List.perm_insertionSort _ _).trans hperm).trans
        (List.perm_insertionSort _ _).symm
    have hs1 : (pySorted (dirTools bs ++ dirTools ss)).Sorted (fun a b => a ≤ b) :=
      List.sorted_insertionSort _ _
    have hs2 : (pySorted (dirTools bs' ++ dirTools ss')).Sorted (fun a b => a ≤ b) :=
      List.sorted_insertionSort _ _
    exact List.eq_of_perm_of_sorted hp hs1 hs2
  refine ⟨pySorted (dirTools bs ++ dirTools ss), by simp [get_tools, hb, hs], ?_, ?_, ?_⟩
  · rw [heq]
    simp [get_tools, hb', hs']
  · exact List.sorted_insertionSort _ _
  · exact List.perm_insertionSort _ _

/-- Witness for C5: two enumeration orders of the same two-entry directory. -/
theorem get_tools_sorted_deterministic_witness :
    ∃ l, get_tools []
        ⟨[], some [⟨("mantra").toList, true, false, true⟩,
                    ⟨("hython").toList, true, false, true⟩], some []⟩ = Except.ok l ∧
      get_tools []
        ⟨[], some [⟨("hython").toList, true, false, true⟩,
                    ⟨("mantra").toList, true, false, true⟩], some []⟩ = Except.ok l ∧
      l.Sorted (fun a b => a ≤ b) ∧
      l.Perm (dirTools [⟨("mantra").toList, true, false, true⟩,
                        ⟨("hython").toList, true, false, true⟩] ++ dirTools []) :=
  get_tools_sorted_deterministic [] _ _ _ _ _ _ rfl rfl rfl rfl
    (List.Perm.swap _ _ _) (List.Perm.refl _)

/-- C6: a missing scan directory is a hard failure: if the primary `bin` directory is
missing discovery fails with its path, if only the secondary `houdini/sbin` directory
is missing discovery fails with its path (the primary directory's survivors are
discarded), and in either case no result list is returned. -/
theorem get_tools_missing_dir (root : PyPath) (fs : FileSystemView) :
    (fs.binDir = none →
      get_tools root fs =
        Except.error (PyError.fileNotFoundError (root ++ [("bin").toList]))) ∧
    (∀ bs, fs.binDir = some bs → fs.sbinDir = none →
      get_tools root fs =
        Except.error (PyError.fileNotFoundError
          (root ++ [("houdini").toList, ("sbin").toList]))) ∧
    ((fs.binDir = none ∨ fs.sbinDir = none) → ∀ l, get_tools root fs ≠ Except.ok l) := by
  refine ⟨fun hb => by simp [get_tools, hb], fun bs hb hs => by simp [get_tools, hb, hs],
    fun hmiss l => ?_⟩
  rcases hmiss with hb | hs
  · simp [get_tools, hb]
  · cases hb : fs.binDir with
    | none => simp [get_tools, hb]
    | some bs => simp [get_tools, hb, hs]

/-- Witness for C6: a nonempty primary directory and a missing secondary directory. -/
theorem get_tools_missing_dir_witness :
    get_tools [] ⟨[], some [⟨("hython").toList, true, false, true⟩], none⟩ =
      Except.error (PyError.fileNotFoundError [("houdini").toList, ("sbin").toList]) :=
  (get_tools_missing_dir [] ⟨[], some [⟨("hython").toList, true, false, true⟩], none⟩).2.1
    [⟨("hython").toList, true, false, true⟩] rfl rfl

/-- A decimal digit character is neither the dot nor the dash separator. -/
theorem isDigit_ne_sep (c : Char) (h : c.isDigit = true) : c ≠ '.' ∧ c ≠ '-' := by
  constructor <;> intro he <;> rw [he] at h <;> exact absurd h (by decide)

/-- C7: the orchestrator resolves the interpreter version before the tool scan: an
interpreter-resolution failure is returned as the bind failure for every input,
including those where the tool scan would also fail, and resolver failures propagate
to the caller unmodified. -/
theorem bind_failure_order (hfs_path : PyPath) (flag : Bool) (fs : FileSystemView) :
    (∀ e, get_python_version fs = Except.error e →
      bind hfs_path flag fs = Except.error e) ∧
    (∀ v e, get_python_version fs = Except.ok v → get_tools hfs_path fs = Except.error e →
      bind hfs_path flag fs = Except.error e) := by
  constructor
  · intro e he
    simp [HoudiniBind.bind, he]
  · intro v e hv ht
    simp [HoudiniBind.bind, hv, ht]

/-- Witness for C7: an input whose interpreter resolution and tool scan would both
fail binds to the interpreter error, not the directory error. -/
theorem bind_failure_order_witness :
    get_python_version ⟨[("python").toList], none, none⟩ =
      Except.error (PyError.runtimeError
        (("Could not determine python version for python").toList)) ∧
    bind [] true ⟨[("python").toList], none, none⟩ =
      Except.error (PyError.runtimeError
        (("Could not determine python version for python").toList)) :=
  ⟨rfl, (bind_failure_order [] true ⟨[("python").toList], none, none⟩).1 _ rfl⟩

/-- C8: on a valid installation, bind produces a descriptor whose version is the folder
payload (truncated to major.minor exactly when the flag is set and more than two
components exist), whose tools are the sorted surviving names, and whose requirement
list is exactly one weak constraint on the `python` package whose range fixes
major.minor and allows any further components. -/
theorem bind_descriptor (hfs_path : PyPath) (flag : Bool) (fs : FileSystemView)
    (pre : PyStr) (comps : List PyStr) (d : Char) (ds : PyStr) (bs ss : List DirEntry)
    (hpre : pre.length = 3) (hname : pathName hfs_path = pre ++ pyJoin '.' comps)
    (hcomps : comps ≠ []) (hdots : ∀ comp ∈ comps, '.' ∉ comp)
    (hpy : pathName fs.resolvedPythonBin = ("python").toList ++ d :: '.' :: ds)
    (hd : d.isDigit) (hds : ds ≠ []) (hdsall : ds.all Char.isDigit)
    (hb : fs.binDir = some bs) (hs : fs.sbinDir = some ss) :
    ∃ desc, bind hfs_path flag fs = Except.ok desc ∧
      desc.version = pyJoin '.' (if 2 < comps.length ∧ flag then comps.take 2 else comps) ∧
      desc.tools = pySorted (dirTools bs ++ dirTools ss) ∧
      desc.requires = [("~python-").toList ++ d :: '.' :: ds] ∧
      (∀ r ∈ desc.requires,
        reqIsWeak r ∧ reqPkgName r = ("python").toList ∧ reqRange r = d :: '.' :: ds) ∧
      (∀ vcomps, rangeMatches (d :: '.' :: ds) vcomps = true ↔ [[d], ds] <+: vcomps) := by
  have hpv : get_python_version fs = Except.ok (d :: '.' :: ds) :=
    (get_python_version_spec fs).1 d ds hpy hd hds hdsall
  have htools : get_tools hfs_path fs =
      Except.ok (pySorted (dirTools bs ++ dirTools ss)) := by
    simp [get_tools, hb, hs]
  have hver : get_houdini_version hfs_path flag =
      pyJoin '.' (if 2 < comps.length ∧ flag then comps.take 2 else comps) := by
    simp only [get_houdini_version, hname, ← hpre, List.drop_left,
      pySplit_pyJoin '.' comps hcomps hdots]
  have hsplitpv : pySplit '.' (d :: '.' :: ds) = [[d], ds] := by
    have h1 : d :: '.' :: ds = [d] ++ '.' :: ds := rfl
    have hnotd : '.' ∉ [d] := by
      simpa using ((isDigit_ne_sep d hd).1).symm
    have hnotds : '.' ∉ ds := by
      intro hmem
      have := List.all_eq_true.mp hdsall '.' hmem
      exact absurd this (by decide)
    rw [h1, pySplit_append _ _ _ hnotd, pySplit_of_not_mem _ _ hnotds]
  refine ⟨⟨("houdinier").toList, get_houdini_version hfs_path flag,
      pySorted (dirTools bs ++ dirTools ss), [("~python-").toList ++ d :: '.' :: ds]⟩,
    ?_, hver, rfl, rfl, ?_, ?_⟩
  · simp [HoudiniBind.bind, hpv, htools]
  · intro r hr
    rw [List.mem_singleton] at hr
    subst hr
    exact ⟨rfl, rfl, rfl⟩
  · intro vcomps
    simp [rangeMatches, hsplitpv]

/-- Witness for C8 at the spec's end-to-end example: root `hfs19.5.493`, interpreter
`python3.9`, tools `hython` and `mantra`. -/
theorem bind_descriptor_witness :
    ∃ desc, bind [("hfs19.5.493").toList] false
        ⟨[("python3.9").toList],
          some [⟨("mantra").toList, true, false, true⟩,
                ⟨("hython").toList, true, false, true⟩], some []⟩ = Except.ok desc ∧
      desc.version = ("19.5.493").toList ∧
      desc.tools = [("hython").toList, ("mantra").toList] ∧
      desc.requires = [("~python-3.9").toList] := by
  obtain ⟨desc, h1, h2, h3, h4, -, -⟩ :=
    bind_descriptor [("hfs19.5.493").toList] false
      ⟨[("python3.9").toList],
        some [⟨("mantra").toList, true, false, true⟩,
              ⟨("hython").toList, true, false, true⟩], some []⟩
      (("hfs").toList) [("19").toList, ("5").toList, ("493").toList] '3' (("9").toList)
      [⟨("mantra").toList, true, false, true⟩, ⟨("hython").toList, true, false, true⟩] []
      (by decide) (by decide) (by decide) (by decide) (by decide) (by decide) (by decide)
      (by decide) rfl rfl
  refine ⟨desc, h1, ?_, ?_, ?_⟩
  · rw [h2]
    decide
  · rw [h3]
    rfl
  · rw [h4]
    rfl

/-- C10: every successful bind registers the package under the fixed constant name
`houdinier`; the name is not derived from any argument. -/
theorem bind_constant_name (hfs_path : PyPath) (flag : Bool) (fs : FileSystemView)
    (desc : PackageDescriptor) (h : bind hfs_path flag fs = Except.ok desc) :
    desc.name = ("houdinier").toList := by
  simp only [HoudiniBind.bind] at h
  split at h
  next => simp at h
  next =>
    split at h
    next => simp at h
    next =>
      simp only [Except.ok.injEq] at h
      cases h
      rfl

/-- Witness for C10 at a concrete successful bind. -/
theorem bind_constant_name_witness :
    (({ name := ("houdinier").toList, version := ("19.5").toList, tools := [],
        requires := [("~python-3.9").toList] } : PackageDescriptor)).name =
      ("houdinier").toList :=
  bind_constant_name [("hfs19.5").toList] false
    ⟨[("python3.9").toList], some [], some []⟩ _ rfl

end HoudiniBind
